import Mathlib

/-!
Verification of the etnoDB record engine: a shallow embedding of the
normalizers, the form-to-record mapper, the validation engine, the search
query builder and the record store operations, with theorems checking the
specification claims against the code.

Conventions of the embedding:
- JavaScript strings are Lean `String`; machine integers are `Int`/`Nat`.
- `undefined`/absent values are `Option`; throwing operations return
  `Except String`.
- `toLowerCase`/`toUpperCase` are modelled on the ASCII letters (the only
  characters the source data and the claims case-convert).
-/

namespace EtnoDB

/-- Whitespace characters recognised by the JavaScript trim and the regex
class used in the source (space, tab, line feed, carriage return, vertical
tab, form feed, no-break space, BOM). -/
def isJsWhitespace (c : Char) : Bool :=
  c = ' ' || c = '\t' || c = '\n' || c = '\r' || c = '\x0b' || c = '\x0c' ||
  c = '\u00A0' || c = '\uFEFF'

/-- Trim on a character list: drop whitespace from both ends, as
`String.prototype.trim`. -/
def jsTrimL (l : List Char) : List Char :=
  ((l.dropWhile isJsWhitespace).reverse.dropWhile isJsWhitespace).reverse

/-- `s.trim()` of the source. -/
def jsTrim (s : String) : String :=
  ⟨jsTrimL s.data⟩

/-- The 26 uppercase/lowercase ASCII letter pairs, used to model
`toLowerCase`/`toUpperCase` on the letters the source actually converts. -/
def asciiCasePairs : List (Char × Char) :=
  [('A', 'a'), ('B', 'b'), ('C', 'c'), ('D', 'd'), ('E', 'e'), ('F', 'f'),
   ('G', 'g'), ('H', 'h'), ('I', 'i'), ('J', 'j'), ('K', 'k'), ('L', 'l'),
   ('M', 'm'), ('N', 'n'), ('O', 'o'), ('P', 'p'), ('Q', 'q'), ('R', 'r'),
   ('S', 's'), ('T', 't'), ('U', 'u'), ('V', 'v'), ('W', 'w'), ('X', 'x'),
   ('Y', 'y'), ('Z', 'z')]

/-- `toLowerCase` on one character (ASCII model). -/
def jsToLowerChar (c : Char) : Char :=
  match asciiCasePairs.find? (fun p => p.1 = c) with
  | some p => p.2
  | none => c

/-- `toUpperCase` on one character (ASCII model). -/
def jsToUpperChar (c : Char) : Char :=
  match asciiCasePairs.find? (fun p => p.2 = c) with
  | some p => p.1
  | none => c

/-- `s.toUpperCase()` (ASCII model). -/
def jsToUpper (s : String) : String :=
  ⟨s.data.map jsToUpperChar⟩

/-- Split a character list at every character satisfying `p`, keeping the
(possibly empty) pieces, as `String.prototype.split` does with a
single-character separator. -/
def splitOnPred (p : Char → Bool) : List Char → List (List Char)
  | [] => [[]]
  | c :: rest =>
    if p c then [] :: splitOnPred p rest
    else
      match splitOnPred p rest with
      | [] => [[c]]
      | h :: t => (c :: h) :: t

/-- Maximal runs of non-whitespace characters: `split(/\s+/)` followed by
the filter that removes empty pieces, as in `formatAuthorABNT`. -/
def jsWords (l : List Char) : List (List Char) :=
  (splitOnPred isJsWhitespace l).filter (fun w => w ≠ [])

/-- The split-trim-filter core of `parseCommaSeparated`. -/
def parseCommaCore (l : List Char) : List String :=
  (((splitOnPred (fun c => c = ',') l).map jsTrimL).filter
    (fun w => w ≠ [])).map (fun w => (⟨w⟩ : String))

/-- `parseCommaSeparated` of `routes.js` lines 316-323: split on comma,
trim each piece, drop empty pieces; `[]` for undefined or empty input
(the `!str` guard). -/
def parseCommaSeparated : Option String → List String
  | none => []
  | some s => if s = "" then [] else parseCommaCore s.data

/-- Collapse: each maximal whitespace run becomes a single hyphen, as
`replace(/\s+/g, '-')`.  The flag records whether the previous character
was part of a whitespace run. -/
def collapseWs : Bool → List Char → List Char
  | _, [] => []
  | prevWs, c :: rest =>
    if isJsWhitespace c then
      if prevWs then collapseWs true rest else '-' :: collapseWs true rest
    else c :: collapseWs false rest

/-- `formatVernacularName` of `routes.js` lines 330-337: trim, lowercase,
replace whitespace runs with single hyphens; `""` for empty input. -/
def formatVernacularName (name : String) : String :=
  if name = "" then ""
  else ⟨collapseWs false ((jsTrimL name.data).map jsToLowerChar)⟩

/-- `formatAuthorABNT` of `routes.js` lines 394-428. -/
def formatAuthorABNT (author : String) : String :=
  let a := jsTrim author
  if a = "" then ""
  else if ',' ∈ a.data then
    match (splitOnPred (fun c => c = ',') a.data).map jsTrimL with
    | [] => ""
    | lastName :: restParts =>
      match restParts.headD [] with
      | [] => ⟨lastName.map jsToUpperChar⟩
      | fc :: _ =>
        ⟨lastName.map jsToUpperChar⟩ ++ ", " ++ ⟨[jsToUpperChar fc]⟩ ++ "."
  else
    match jsWords a.data with
    | [] => ""
    | [p] => ⟨p.map jsToUpperChar⟩
    | p :: ps =>
      match p with
      | [] => ""
      | fc :: _ =>
        ⟨(ps.getLastD p).map jsToUpperChar⟩ ++ ", " ++ ⟨[jsToUpperChar fc]⟩ ++ "."

/-- `arr.join(',')`, used only to state the round-trip law of the spec. -/
def jsJoin : List String → String
  | [] => ""
  | [x] => x
  | x :: y :: rest => x ++ "," ++ jsJoin (y :: rest)

/-- The Brazilian state table of `formatStateName` (`routes.js` 344-386). -/
def stateMap : List (String × String) :=
  [("AC", "Acre"), ("AL", "Alagoas"), ("AP", "Amapá"), ("AM", "Amazonas"),
   ("BA", "Bahia"), ("CE", "Ceará"), ("DF", "Distrito Federal"),
   ("ES", "Espírito Santo"), ("GO", "Goiás"), ("MA", "Maranhão"),
   ("MT", "Mato Grosso"), ("MS", "Mato Grosso do Sul"), ("MG", "Minas Gerais"),
   ("PA", "Pará"), ("PB", "Paraíba"), ("PR", "Paraná"), ("PE", "Pernambuco"),
   ("PI", "Piauí"), ("RJ", "Rio de Janeiro"), ("RN", "Rio Grande do Norte"),
   ("RS", "Rio Grande do Sul"), ("RO", "Rondônia"), ("RR", "Roraima"),
   ("SC", "Santa Catarina"), ("SP", "São Paulo"), ("SE", "Sergipe"),
   ("TO", "Tocantins")]

/-- `formatStateName` of `routes.js` lines 344-386: known two-letter codes
(after trim and uppercase) expand to the full name, anything else passes
through trimmed. -/
def formatStateName (state : String) : String :=
  if state = "" then ""
  else
    match stateMap.find? (fun p => p.1 = jsToUpper (jsTrim state)) with
    | some p => p.2
    | none => jsTrim state

/-- A plant entry of the data model (`nomeCientifico`/`nomeVernacular`/
`tipoUso` arrays). -/
structure Plant where
  nomeCientifico : List String
  nomeVernacular : List String
  tipoUso : List String
deriving DecidableEq

/-- A community entry of the data model.  The source field `local` is a
Lean keyword, so it is called `localDesc` here. -/
structure Community where
  nome : String
  tipo : String
  municipio : String
  estado : String
  localDesc : String
  atividadesEconomicas : List String
  observacoes : String
  plantas : List Plant
deriving DecidableEq

/-- A reference record of the data model.  `status` is optional: the
acquisition mapper emits none, the curation mapper sets one. -/
structure Reference where
  titulo : String
  autores : List String
  ano : Int
  resumo : String
  DOI : String
  status : Option String
  comunidades : List Community
deriving DecidableEq

/-- Modelled from the spec: the `Status` enum of the missing
`models/Reference.js` — the three workflow states pending/approved/
rejected (spec section 3 and the data-model document). -/
def statusValues : List String :=
  ["pending", "approved", "rejected"]

/-- Modelled from the spec: `Status.APPROVED` of the missing
`models/Reference.js`. -/
def statusApproved : String := "approved"

/-- Does a plant carry at least one non-empty (after trim) scientific or
vernacular name?  This is the predicate of `filterEmptyPlants`
(`routes.js` 183-193). -/
def plantHasName (p : Plant) : Bool :=
  (p.nomeCientifico.any fun n => jsTrim n ≠ "") ||
  (p.nomeVernacular.any fun n => jsTrim n ≠ "")

/-- `filterEmptyPlants` of `routes.js` lines 183-193. -/
def filterEmptyPlants (plantas : List Plant) : List Plant :=
  plantas.filter plantHasName

/-- Modelled from the spec: the field length limits of the missing
`models/Reference.js` `Constraints` object, values per spec section 3
and the validation rules of section 4.3. -/
def tituloMax : Nat := 500
def resumoMax : Nat := 5000
def doiMax : Nat := 100
def anoMin : Int := 1500
def anoMax : Int := 2100
def comNomeMax : Nat := 200
def comMunicipioMax : Nat := 100
def comEstadoMax : Nat := 100
def comLocalMax : Nat := 500
def comObservacoesMax : Nat := 2000
def comAtividadeMax : Nat := 100
def plantaNomeCientificoMax : Nat := 200
def plantaNomeVernacularMax : Nat := 100
def plantaTipoUsoMax : Nat := 100

/-- The result shape of `validateReference` (`validation.js` 16-77). -/
structure ValidationResult where
  isValid : Bool
  errors : List String
deriving DecidableEq

/-- Title rule of `validateReference` (`validation.js` 20-24). -/
def tituloErrors (titulo : String) : List String :=
  if jsTrim titulo = "" then ["Título é obrigatório"]
  else if titulo.length > tituloMax then
    ["Título deve ter no máximo " ++ toString tituloMax ++ " caracteres"]
  else []

/-- Authors rule of `validateReference` (`validation.js` 27-34). -/
def autoresErrors (autores : List String) : List String :=
  if autores = [] then ["Pelo menos um autor é obrigatório"]
  else if autores.any (fun a => jsTrim a = "") then
    ["Todos os autores devem ter um nome válido"]
  else []

/-- Year rule of `validateReference` (`validation.js` 37-41); `!data.ano`
is true exactly for the integer 0 in the typed model. -/
def anoErrors (ano : Int) : List String :=
  if ano = 0 then ["Ano é obrigatório e deve ser um número inteiro"]
  else if ano < anoMin ∨ ano > anoMax then
    ["Ano deve estar entre " ++ toString anoMin ++ " e " ++ toString anoMax]
  else []

/-- Optional abstract rule (`validation.js` 44-46). -/
def resumoErrors (resumo : String) : List String :=
  if resumo ≠ "" ∧ resumo.length > resumoMax then
    ["Resumo deve ter no máximo " ++ toString resumoMax ++ " caracteres"]
  else []

/-- Optional DOI rule (`validation.js` 48-50). -/
def doiErrors (doi : String) : List String :=
  if doi ≠ "" ∧ doi.length > doiMax then
    ["DOI deve ter no máximo " ++ toString doiMax ++ " caracteres"]
  else []

/-- Status rule (`validation.js` 53-55): only checked when present and
truthy. -/
def statusErrors : Option String → List String
  | none => []
  | some s =>
    if s ≠ "" ∧ s ∉ statusValues then
      ["Status deve ser \"pending\", \"approved\" ou \"rejected\""]
    else []

/-- Per-array plant-name/use rule of `validatePlant` (`validation.js`
148-201): required non-empty array, all entries non-empty after trim,
per-entry length cap. -/
def plantArrayErrors (entries : List String) (reqMsg invMsg : String)
    (capMsgAt : Nat → String) (cap : Nat) : List String :=
  if entries = [] then [reqMsg]
  else
    (if entries.any (fun n => jsTrim n = "") then [invMsg] else []) ++
      entries.enum.flatMap (fun inm =>
        if inm.2 ≠ "" ∧ inm.2.length > cap then [capMsgAt (inm.1 + 1)] else [])

/-- `validatePlant` of `validation.js` lines 148-201. -/
def validatePlant (planta : Plant) (communityIndex plantIndex : Nat) :
    List String :=
  let pfx := "Comunidade " ++ toString communityIndex ++ ", Planta " ++
    toString plantIndex
  plantArrayErrors planta.nomeCientifico
    (pfx ++ ": Pelo menos um nome científico é obrigatório")
    (pfx ++ ": Todos os nomes científicos devem ser válidos")
    (fun i => pfx ++ ": Nome científico " ++ toString i ++
      " deve ter no máximo " ++ toString plantaNomeCientificoMax ++ " caracteres")
    plantaNomeCientificoMax ++
  plantArrayErrors planta.nomeVernacular
    (pfx ++ ": Pelo menos um nome vernacular é obrigatório")
    (pfx ++ ": Todos os nomes vernaculares devem ser válidos")
    (fun i => pfx ++ ": Nome vernacular " ++ toString i ++
      " deve ter no máximo " ++ toString plantaNomeVernacularMax ++ " caracteres")
    plantaNomeVernacularMax ++
  plantArrayErrors planta.tipoUso
    (pfx ++ ": Pelo menos um tipo de uso é obrigatório")
    (pfx ++ ": Todos os tipos de uso devem ser válidos")
    (fun i => pfx ++ ": Tipo de uso " ++ toString i ++
      " deve ter no máximo " ++ toString plantaTipoUsoMax ++ " caracteres")
    plantaTipoUsoMax

/-- `validateCommunity` of `validation.js` lines 85-139; `index` is the
1-based index used in the messages. -/
def validateCommunity (comunidade : Community) (index : Nat) : List String :=
  let pfx := "Comunidade " ++ toString index
  (if jsTrim comunidade.nome = "" then [pfx ++ ": Nome é obrigatório"]
   else if comunidade.nome.length > comNomeMax then
     [pfx ++ ": Nome deve ter no máximo " ++ toString comNomeMax ++ " caracteres"]
   else []) ++
  (if jsTrim comunidade.municipio = "" then [pfx ++ ": Município é obrigatório"]
   else if comunidade.municipio.length > comMunicipioMax then
     [pfx ++ ": Município deve ter no máximo " ++ toString comMunicipioMax ++
       " caracteres"]
   else []) ++
  (if jsTrim comunidade.estado = "" then [pfx ++ ": Estado é obrigatório"]
   else if comunidade.estado.length > comEstadoMax then
     [pfx ++ ": Estado deve ter no máximo " ++ toString comEstadoMax ++
       " caracteres"]
   else []) ++
  (if comunidade.localDesc ≠ "" ∧ comunidade.localDesc.length > comLocalMax then
     [pfx ++ ": Local deve ter no máximo " ++ toString comLocalMax ++
       " caracteres"]
   else []) ++
  (if comunidade.observacoes ≠ "" ∧
      comunidade.observacoes.length > comObservacoesMax then
     [pfx ++ ": Observações devem ter no máximo " ++
       toString comObservacoesMax ++ " caracteres"]
   else []) ++
  comunidade.atividadesEconomicas.enum.flatMap (fun ia =>
    if ia.2 ≠ "" ∧ ia.2.length > comAtividadeMax then
      [pfx ++ ": Atividade econômica " ++ toString (ia.1 + 1) ++
        " deve ter no máximo " ++ toString comAtividadeMax ++ " caracteres"]
    else []) ++
  (if comunidade.plantas = [] then
     [pfx ++ ": Pelo menos uma planta é obrigatória"]
   else comunidade.plantas.enum.flatMap (fun ip =>
     validatePlant ip.2 index (ip.1 + 1)))

/-- Communities rule of `validateReference` (`validation.js` 58-65). -/
def comunidadesErrors (comunidades : List Community) : List String :=
  if comunidades = [] then ["Pelo menos uma comunidade é obrigatória"]
  else comunidades.enum.flatMap (fun ic => validateCommunity ic.2 (ic.1 + 1))

/-- `validateReference` of `validation.js` lines 16-77: every rule appends
its messages, `isValid` is emptiness of the collected list. -/
def validateReference (data : Reference) : ValidationResult :=
  let errors :=
    tituloErrors data.titulo ++ autoresErrors data.autores ++
    anoErrors data.ano ++ resumoErrors data.resumo ++ doiErrors data.DOI ++
    statusErrors data.status ++ comunidadesErrors data.comunidades
  { isValid := errors.isEmpty, errors := errors }

/-- Strip a literal pattern from the front of a character list; `none`
when it is not there. -/
def stripLit : List Char → List Char → Option (List Char)
  | [], l => some l
  | _, [] => none
  | p :: ps, c :: cs => if c = p then stripLit ps cs else none

/-- Line terminators, which the `.` of a JavaScript regex (no dotAll flag)
does not match. -/
def isLineTerm (c : Char) : Bool :=
  c = '\n' || c = '\r' || c = '\u2028' || c = '\u2029'

/-- `parseInt` on a run of decimal digits. -/
def natOfDigits (ds : List Char) : Nat :=
  ds.foldl (fun n c => n * 10 + (c.toNat - 48)) 0

/-- The key match of `parseFormData` (`routes.js` 253):
`/^comunidades\[(\d+)\]\[(.+)\]$/` giving the parsed integer index and the
field part.  The greedy `(.+)` followed by `\]$` captures everything up to
the final `]`, which must close the key; `.` does not cross line
terminators. -/
def parseComKey (key : String) : Option (Nat × String) :=
  match stripLit "comunidades[".data key.data with
  | none => none
  | some rest =>
    let ds := rest.takeWhile Char.isDigit
    let after := rest.dropWhile Char.isDigit
    if ds = [] then none
    else
      match after with
      | ']' :: '[' :: fieldPart =>
        let field := fieldPart.dropLast
        if fieldPart.getLastD ' ' = ']' ∧ field ≠ [] ∧
            field.all (fun c => ¬ isLineTerm c) then
          some (natOfDigits ds, ⟨field⟩)
        else none
      | _ => none

/-- The plant sub-match of `parseFormData` (`routes.js` 263):
`/^plantas\]\[(\d+)\]\[(.+)$/` on the extracted field part. -/
def parsePlantField (field : String) : Option (Nat × String) :=
  match stripLit "plantas][".data field.data with
  | none => none
  | some rest =>
    let ds := rest.takeWhile Char.isDigit
    let after := rest.dropWhile Char.isDigit
    if ds = [] then none
    else
      match after with
      | ']' :: '[' :: pf =>
        if pf ≠ [] ∧ pf.all (fun c => ¬ isLineTerm c) then
          some (natOfDigits ds, ⟨pf⟩)
        else none
      | _ => none

/-- Overwrite-or-append assignment on an association list, modelling
property assignment on a JavaScript object. -/
def assocSet {α β : Type} [DecidableEq α] (k : α) (v : β) :
    List (α × β) → List (α × β)
  | [] => [(k, v)]
  | (k0, v0) :: rest =>
    if k0 = k then (k, v) :: rest else (k0, v0) :: assocSet k v rest

/-- Property lookup on an association list. -/
def assocGet {α β : Type} [DecidableEq α] (l : List (α × β)) (k : α) :
    Option β :=
  (l.find? (fun p => p.1 = k)).map (fun p => p.2)

/-- The intermediate per-community grouping object of `parseFormData`:
direct fields and a plant-index → plant-fields map. -/
structure RawCom where
  fields : List (String × String)
  plantas : List (Nat × List (String × String))
deriving DecidableEq

/-- The empty `{ plantas: {} }` object. -/
def emptyRawCom : RawCom := ⟨[], []⟩

/-- One iteration of the key scan of `parseFormData` (`routes.js`
252-278): route a form entry into the community grouping. -/
def addFormEntry (acc : List (Nat × RawCom)) (kv : String × String) :
    List (Nat × RawCom) :=
  match parseComKey kv.1 with
  | none => acc
  | some (idx, field) =>
    let com := (assocGet acc idx).getD emptyRawCom
    let com2 :=
      match parsePlantField field with
      | some (pIdx, pField) =>
        let pfields := (assocGet com.plantas pIdx).getD []
        { com with plantas := assocSet pIdx (assocSet pField kv.2 pfields) com.plantas }
      | none => { com with fields := assocSet field kv.2 com.fields }
    assocSet idx com2 acc

/-- The `comunidadesData` object built by the key scan. -/
def collectComunidades (fd : List (String × String)) : List (Nat × RawCom) :=
  fd.foldl addFormEntry []

/-- Lexicographic comparison of character lists by code point, as the
JavaScript default sort comparator compares the stringified keys. -/
def charListLe : List Char → List Char → Bool
  | [], _ => true
  | _ :: _, [] => false
  | a :: as, b :: bs =>
    if a < b then true else if b < a then false else charListLe as bs

/-- The order `Object.keys(..).sort()` uses: the decimal string
representations of the parsed integer indices, compared lexicographically
(the JavaScript default comparator stringifies its arguments). -/
def strKeyLe (a b : Nat) : Prop :=
  charListLe (toString a).data (toString b).data = true

instance : DecidableRel strKeyLe := fun _ _ =>
  inferInstanceAs (Decidable (_ = true))

/-- Insertion step of the key sort. -/
def insertStrKey (k : Nat) : List Nat → List Nat
  | [] => [k]
  | x :: xs =>
    if charListLe (toString k).data (toString x).data then k :: x :: xs
    else x :: insertStrKey k xs

/-- `Object.keys(..).sort()`: the distinct keys in ascending lexicographic
order of their decimal representations. -/
def jsSortStrKeys : List Nat → List Nat
  | [] => []
  | k :: ks => insertStrKey k (jsSortStrKeys ks)

/-- Trimmed community field access `comunidade.f?.trim() || ''`. -/
def trimmedField (fields : List (String × String)) (k : String) : String :=
  jsTrim ((assocGet fields k).getD "")

/-- Plant emission of `parseFormData` (`routes.js` 286-294). -/
def buildPlant (pfields : List (String × String)) : Plant :=
  { nomeCientifico := parseCommaSeparated (assocGet pfields "nomeCientifico"),
    nomeVernacular :=
      (parseCommaSeparated (assocGet pfields "nomeVernacular")).map
        formatVernacularName,
    tipoUso := parseCommaSeparated (assocGet pfields "tipoUso") }

/-- Community emission of `parseFormData` (`routes.js` 281-306): plant
keys sorted the same way, plants built, empty plants filtered. -/
def buildCommunity (rc : RawCom) : Community :=
  { nome := trimmedField rc.fields "nome",
    tipo := trimmedField rc.fields "tipo",
    municipio := trimmedField rc.fields "municipio",
    estado := formatStateName ((assocGet rc.fields "estado").getD ""),
    localDesc := trimmedField rc.fields "local",
    atividadesEconomicas :=
      parseCommaSeparated (assocGet rc.fields "atividadesEconomicas"),
    observacoes := trimmedField rc.fields "observacoes",
    plantas := filterEmptyPlants
      ((jsSortStrKeys (rc.plantas.map (fun p => p.1))).map
        (fun pIdx => buildPlant ((assocGet rc.plantas pIdx).getD []))) }

/-- `parseInt` of JavaScript on a string: leading whitespace skipped,
optional sign, `0x` prefix switches to hexadecimal, then the maximal digit
run; `none` models NaN. -/
def jsParseInt (s : String) : Option Int :=
  let l := s.data.dropWhile isJsWhitespace
  let signAndRest : Int × List Char :=
    match l with
    | '-' :: r => (-1, r)
    | '+' :: r => (1, r)
    | _ => (1, l)
  match signAndRest.2 with
  | '0' :: x :: r =>
    if x = 'x' ∨ x = 'X' then
      let hs := r.takeWhile (fun c => c.isDigit ||
        ('a' ≤ c ∧ c ≤ 'f') || ('A' ≤ c ∧ c ≤ 'F'))
      if hs = [] then none
      else some (signAndRest.1 * ((hs.foldl (fun n c =>
        n * 16 + (if c.isDigit then c.toNat - 48
                  else if 'a' ≤ c then c.toNat - 87 else c.toNat - 55)) 0 : Nat) : Int))
    else
      some (signAndRest.1 *
        (natOfDigits (('0' :: x :: r).takeWhile Char.isDigit) : Int))
  | rest =>
    let ds := rest.takeWhile Char.isDigit
    if ds = [] then none else some (signAndRest.1 * (natOfDigits ds : Int))

/-- `parseInt(v) || 0`. -/
def jsParseIntD (v : Option String) : Int :=
  ((v.bind jsParseInt).getD 0)

/-- `parseFormData` of `routes.js` lines 238-308 (the form-urlencoded
branch, reached when `comunidades` is not already a structured array):
reference fields from the flat map, communities grouped by parsed integer
index and emitted in the order of `Object.keys(..).sort()`. -/
def parseFormData (fd : List (String × String)) : Reference :=
  let cdata := collectComunidades fd
  { titulo := jsTrim ((assocGet fd "titulo").getD ""),
    autores := (parseCommaSeparated (assocGet fd "autores")).map formatAuthorABNT,
    ano := jsParseIntD (assocGet fd "ano"),
    resumo := jsTrim ((assocGet fd "resumo").getD ""),
    DOI := jsTrim ((assocGet fd "DOI").getD ""),
    status := none,
    comunidades := (jsSortStrKeys (cdata.map (fun p => p.1))).map
      (fun idx => buildCommunity ((assocGet cdata idx).getD emptyRawCom)) }

/-- The characters of the class `[.*+?^${}()|[\]\\]` escaped by
`sanitizeRegex` (presentation routes, lines 187-192). -/
def regexMeta : List Char :=
  ['.', '*', '+', '?', '^', '$', '\x7b', '\x7d', '(', ')', '|', '[', ']', '\\']

/-- The global replacement `replace(/[.*+?^${}()|[\]\\]/g, '\\$&')`: each
metacharacter becomes a backslash followed by itself. -/
def sanitizeChars : List Char → List Char
  | [] => []
  | c :: rest =>
    (if c ∈ regexMeta then ['\\', c] else [c]) ++ sanitizeChars rest

/-- `sanitizeRegex` of the presentation routes, lines 187-192: trim, then
escape every pattern metacharacter. -/
def sanitizeRegex (s : String) : String :=
  if s = "" then ""
  else ⟨sanitizeChars (jsTrimL s.data)⟩

/-- The search filters of the presentation route (query parameters
`comunidade`, `planta`, `estado`, `municipio`; absent = `none`). -/
structure SearchFilters where
  comunidade : Option String
  planta : Option String
  estado : Option String
  municipio : Option String
deriving DecidableEq

/-- One predicate pushed by `buildSearchQuery`: the four condition shapes
of the source (substring on community name, OR across the two plant name
fields, anchored state, anchored municipality), each carrying the regex
text actually embedded in the query. -/
inductive SearchCond where
  | comunidadeNome (regex : String)
  | plantaNome (regex : String)
  | estadoExato (regex : String)
  | municipioExato (regex : String)
deriving DecidableEq

/-- The query object built by `buildSearchQuery`: the fixed `status`
restriction and the `$and` list of pushed conditions. -/
structure SearchQuery where
  status : String
  conds : List SearchCond
deriving DecidableEq

/-- The filter guard `filters.f && filters.f.trim().length > 0`. -/
def filterGiven : Option String → Bool
  | none => false
  | some s => s ≠ "" && jsTrim s ≠ ""

/-- `buildSearchQuery` of the presentation routes, lines 114-178. -/
def buildSearchQuery (filters : SearchFilters) : SearchQuery :=
  { status := statusApproved,
    conds :=
      (match filters.comunidade with
       | some s => if filterGiven (some s) then
           [SearchCond.comunidadeNome (sanitizeRegex s)] else []
       | none => []) ++
      (match filters.planta with
       | some s => if filterGiven (some s) then
           [SearchCond.plantaNome (sanitizeRegex s)] else []
       | none => []) ++
      (match filters.estado with
       | some s => if filterGiven (some s) then
           [SearchCond.estadoExato ("^" ++ sanitizeRegex s ++ "$")] else []
       | none => []) ++
      (match filters.municipio with
       | some s => if filterGiven (some s) then
           [SearchCond.municipioExato ("^" ++ sanitizeRegex s ++ "$")] else []
       | none => []) }

/-- A regex atom of the pattern fragment the queries use: a literal
character or the dot. -/
inductive RAtom where
  | lit (c : Char)
  | dot
deriving DecidableEq

/-- A token: an atom matched once, or starred. -/
inductive RTok where
  | once (a : RAtom)
  | star (a : RAtom)
deriving DecidableEq

/-- Tokenizer for the regex fragment: backslash escapes make a character
literal, `.` is the any-character atom, a following `*` stars the atom;
a bare metacharacter other than those is outside the modelled fragment
(`none`). -/
def tokenize : List Char → Option (List RTok)
  | [] => some []
  | ['\\'] => none
  | '\\' :: c2 :: '*' :: rest =>
    (tokenize rest).map (fun ts => RTok.star (RAtom.lit c2) :: ts)
  | '\\' :: c2 :: rest =>
    (tokenize rest).map (fun ts => RTok.once (RAtom.lit c2) :: ts)
  | '.' :: '*' :: rest =>
    (tokenize rest).map (fun ts => RTok.star RAtom.dot :: ts)
  | '.' :: rest =>
    (tokenize rest).map (fun ts => RTok.once RAtom.dot :: ts)
  | c :: '*' :: rest =>
    if c ∈ regexMeta then none
    else (tokenize rest).map (fun ts => RTok.star (RAtom.lit c) :: ts)
  | c :: rest =>
    if c ∈ regexMeta then none
    else (tokenize rest).map (fun ts => RTok.once (RAtom.lit c) :: ts)

/-- Does an atom match one character? -/
def atomMatches : RAtom → Char → Bool
  | RAtom.lit c, x => x = c
  | RAtom.dot, x => ¬ isLineTerm x

/-- Can the token list match the empty string? -/
def nullableToks : List RTok → Bool
  | [] => true
  | RTok.once _ :: _ => false
  | RTok.star _ :: ts => nullableToks ts

/-- Matching step against the first character `c` with remainder `rest`:
`recur ts` continues the match of `ts` against `rest`. -/
def matchCons (c : Char) (recur : List RTok → Bool) : List RTok → Bool
  | [] => true
  | RTok.once a :: ts => atomMatches a c && recur ts
  | RTok.star a :: ts =>
    matchCons c recur ts || (atomMatches a c && recur (RTok.star a :: ts))

/-- Does the token list match a prefix of the character list? -/
def matchToks : List Char → List RTok → Bool
  | [], ts => nullableToks ts
  | c :: cs, ts => matchCons c (matchToks cs) ts

/-- Unanchored search: does the token list match at some position?  This
is `new RegExp(pattern)` tested against the text. -/
def searchToks (ts : List RTok) : List Char → Bool
  | [] => matchToks [] ts
  | c :: cs => matchToks (c :: cs) ts || searchToks ts cs

/-- Unanchored regex search of `pattern` in `text`, `none` when the
pattern uses a construct outside the modelled fragment. -/
def regexSearch (pattern text : String) : Option Bool :=
  (tokenize pattern.data).map (fun ts => searchToks ts text.data)

/-- A stored reference document: the record data plus the store-managed
status and timestamps. -/
structure StoredReference where
  data : Reference
  status : String
  createdAt : Nat
  updatedAt : Nat
deriving DecidableEq

/-- The reference collection: identifier → document. -/
structure Store where
  refs : List (Nat × StoredReference)
deriving DecidableEq

/-- `findOne({_id})`. -/
def findRef (store : Store) (id : Nat) : Option StoredReference :=
  assocGet store.refs id

/-- The `$set` write of `findOneAndUpdate`. -/
def setRef (store : Store) (id : Nat) (r : StoredReference) : Store :=
  ⟨assocSet id r store.refs⟩

/-- `updateReferenceStatus` of the database service: the status is checked
against the enum before any write; a missing target is an error; errors
are wrapped with the operation message by the catch block.  The returned
store is the state after the call. -/
def updateReferenceStatus (store : Store) (id : Nat) (status : String)
    (now : Nat) : Store × Except String StoredReference :=
  if status ∉ statusValues then
    (store, Except.error "Falha ao atualizar status: Status inválido")
  else
    match findRef store id with
    | none => (store, Except.error "Falha ao atualizar status: Referência não encontrada")
    | some r =>
      let r2 := { r with status := status, updatedAt := now }
      (setRef store id r2, Except.ok r2)

/-- `updateReferenceById` of the database service: `findOneAndUpdate` with
the `$set` document built from the update data (the document builder
`updateReference` lives in the missing `models/Reference.js`; modelled
from the spec it replaces the editable fields and refreshes `updatedAt`).
A missing target is an error wrapped by the catch block. -/
def updateReferenceById (store : Store) (id : Nat) (upd : Reference)
    (now : Nat) : Store × Except String StoredReference :=
  match findRef store id with
  | none => (store, Except.error "Falha ao atualizar referência: Referência não encontrada")
  | some old =>
    let r2 := { old with data := upd, updatedAt := now }
    (setRef store id r2, Except.ok r2)

/-! ## Theorems for the claims -/

/-- C5: `buildSearchQuery` always restricts to status approved, and the
empty filter set contributes no further predicate. -/
theorem buildSearchQuery_approved_only :
    (∀ f : SearchFilters, (buildSearchQuery f).status = "approved") ∧
    buildSearchQuery ⟨none, none, none, none⟩ =
      { status := "approved", conds := [] } := by
  exact ⟨fun f => rfl, rfl⟩

/-- C9: the status-only update checks the new status against the enum
before any write and fails leaving the store unchanged on a value outside
the enum; both the status update and the full update fail with the
not-found error, store unchanged, when the identifier matches no stored
record. -/
theorem update_validates_status_and_existence
    (store : Store) (id : Nat) (st : String) (upd : Reference) (now : Nat) :
    (st ∉ statusValues →
      updateReferenceStatus store id st now =
        (store, Except.error "Falha ao atualizar status: Status inválido")) ∧
    (st ∈ statusValues → findRef store id = none →
      updateReferenceStatus store id st now =
        (store, Except.error "Falha ao atualizar status: Referência não encontrada")) ∧
    (findRef store id = none →
      updateReferenceById store id upd now =
        (store, Except.error "Falha ao atualizar referência: Referência não encontrada")) := by
  refine ⟨fun h => ?_, fun h1 h2 => ?_, fun h => ?_⟩
  · simp [updateReferenceStatus, h]
  · simp [updateReferenceStatus, h1, h2]
  · simp [updateReferenceById, h]

/-- Witness for C9 at a concrete store, identifier, status and record. -/
theorem update_validates_status_and_existence_witness :
    (updateReferenceStatus ⟨[]⟩ 1 "bogus" 0 =
      (⟨[]⟩, Except.error "Falha ao atualizar status: Status inválido")) ∧
    (updateReferenceStatus ⟨[]⟩ 1 "approved" 0 =
      (⟨[]⟩, Except.error "Falha ao atualizar status: Referência não encontrada")) ∧
    (updateReferenceById ⟨[]⟩ 1 ⟨"", [], 0, "", "", none, []⟩ 0 =
      (⟨[]⟩, Except.error "Falha ao atualizar referência: Referência não encontrada")) := by
  have h := update_validates_status_and_existence ⟨[]⟩ 1 "bogus"
    ⟨"", [], 0, "", "", none, []⟩ 0
  have h2 := update_validates_status_and_existence ⟨[]⟩ 1 "approved"
    ⟨"", [], 0, "", "", none, []⟩ 0
  exact ⟨h.1 (by decide), h2.2.1 (by decide) (by rfl), h2.2.2 (by rfl)⟩

/-- A string is empty exactly when its character list is. -/
theorem string_eq_empty_iff_data {s : String} : s = "" ↔ s.data = [] := by
  constructor
  · intro h; subst h; rfl
  · intro h; apply String.ext; simpa using h

/-- Dropping while a predicate that holds nowhere in the list is the
identity. -/
theorem dropWhile_eq_self_of (p : Char → Bool) (l : List Char)
    (h : ∀ c ∈ l, p c = false) : l.dropWhile p = l := by
  cases l with
  | nil => rfl
  | cons c rest =>
    have := h c (by simp)
    simp [List.dropWhile_cons, this]

/-- Trimming a whitespace-free list is the identity. -/
theorem jsTrimL_eq_self (l : List Char)
    (h : ∀ c ∈ l, isJsWhitespace c = false) : jsTrimL l = l := by
  unfold jsTrimL
  rw [dropWhile_eq_self_of _ _ h, dropWhile_eq_self_of, List.reverse_reverse]
  intro c hc
  exact h c (by simpa using hc)

/-- Splitting a list free of separators yields the single piece. -/
theorem splitOnPred_of_no_sep (p : Char → Bool) (x : List Char)
    (h : ∀ c ∈ x, p c = false) : splitOnPred p x = [x] := by
  induction x with
  | nil => rfl
  | cons c cs ih =>
    have hc := h c (by simp)
    have ihx := ih (fun d hd => h d (by simp [hd]))
    simp [splitOnPred, hc, ihx]

/-- Splitting a list that starts with a separator-free piece followed by
a separator peels off that piece. -/
theorem splitOnPred_append_sep (p : Char → Bool) (x rest : List Char)
    (sep : Char) (hsep : p sep = true) (h : ∀ c ∈ x, p c = false) :
    splitOnPred p (x ++ sep :: rest) = x :: splitOnPred p rest := by
  induction x with
  | nil => simp [splitOnPred, hsep]
  | cons c cs ih =>
    have hc := h c (by simp)
    have ihx := ih (fun d hd => h d (by simp [hd]))
    simp [splitOnPred, hc, ihx]

/-- The core parse undoes the comma join of clean pieces. -/
theorem parseCommaCore_join (arr : List String)
    (h : ∀ x ∈ arr, x ≠ "" ∧ ',' ∉ x.data ∧ jsTrim x = x) :
    parseCommaCore (jsJoin arr).data = arr := by
  induction arr with
  | nil => rfl
  | cons x rest ih =>
    obtain ⟨hx0, hxc, hxt⟩ := h x (by simp)
    have hxd : x.data ≠ [] := fun hd => hx0 (string_eq_empty_iff_data.mpr hd)
    have hxtrim : jsTrimL x.data = x.data := by
      have := congrArg String.data hxt
      simpa [jsTrim] using this
    have hnosep : ∀ c ∈ x.data, (fun c => decide (c = ',')) c = false := by
      intro c hc
      simp only [decide_eq_false_iff_not]
      intro hccomma
      exact hxc (hccomma ▸ hc)
    cases rest with
    | nil =>
      simp only [jsJoin, parseCommaCore]
      rw [splitOnPred_of_no_sep _ _ hnosep]
      simp [hxtrim, hxd]
    | cons y rest2 =>
      have ihx := ih (fun z hz => h z (by simp [hz]))
      have hdata : (jsJoin (x :: y :: rest2)).data =
          x.data ++ ',' :: (jsJoin (y :: rest2)).data := by
        show (x ++ "," ++ jsJoin (y :: rest2)).data = _
        rw [String.data_append, String.data_append]
        simp
      simp only [parseCommaCore] at ihx ⊢
      rw [hdata, splitOnPred_append_sep _ _ _ ',' (by simp) hnosep]
      simp only [List.map_cons, hxtrim]
      rw [List.filter_cons_of_pos (by simpa using hxd), List.map_cons]
      have hmk : (⟨x.data⟩ : String) = x := by cases x; rfl
      rw [hmk, ihx]

/-- C7: `parseCommaSeparated` returns `[]` for undefined or empty input,
and undoes a comma join of non-empty, comma-free, trimmed pieces. -/
theorem parseCommaSeparated_round_trip :
    parseCommaSeparated none = [] ∧
    parseCommaSeparated (some "") = [] ∧
    ∀ arr : List String,
      (∀ x ∈ arr, x ≠ "" ∧ ',' ∉ x.data ∧ jsTrim x = x) →
      parseCommaSeparated (some (jsJoin arr)) = arr := by
  refine ⟨rfl, rfl, fun arr h => ?_⟩
  have hcore := parseCommaCore_join arr h
  cases arr with
  | nil => rfl
  | cons x rest =>
    have hne : jsJoin (x :: rest) ≠ "" := by
      cases rest with
      | nil =>
        exact (h x (by simp)).1
      | cons y rest2 =>
        intro hjoin
        have := congrArg String.data hjoin
        rw [show (jsJoin (x :: y :: rest2)) = x ++ "," ++ jsJoin (y :: rest2) from rfl,
          String.data_append, String.data_append] at this
        simp at this
    simp only [parseCommaSeparated, hne, if_false, hcore]

/-- Witness for C7 at the concrete clean array of the spec example. -/
theorem parseCommaSeparated_round_trip_witness :
    parseCommaSeparated (some (jsJoin ["erva-doce", "picão"])) =
      ["erva-doce", "picão"] :=
  parseCommaSeparated_round_trip.2.2 ["erva-doce", "picão"] (by decide)

/-- C8: `formatAuthorABNT` on every input: a trim-empty name yields `""`;
a comma-form name (the trimmed split pieces being surname, given name,
possibly more) yields the uppercased surname alone when no given name
follows the comma, and otherwise the uppercased surname with the
uppercased first letter of the given name as `", X."`; a comma-free name
whose whitespace tokens are `w :: ws` is uppercased as-is when it is the
single token, and otherwise takes the last token as surname and the first
letter of the first token as initial; in particular the three spec
examples hold. -/
theorem formatAuthorABNT_spec :
    (∀ s : String, jsTrim s = "" → formatAuthorABNT s = "") ∧
    (∀ (s : String) (surname given : List Char) (rest : List (List Char)),
      (splitOnPred (fun c => c = ',') (jsTrim s).data).map jsTrimL =
        surname :: given :: rest →
      (given = [] → formatAuthorABNT s = ⟨surname.map jsToUpperChar⟩) ∧
      (∀ (fc : Char) (fcr : List Char), given = fc :: fcr →
        formatAuthorABNT s =
          ⟨surname.map jsToUpperChar⟩ ++ ", " ++ ⟨[jsToUpperChar fc]⟩ ++ ".")) ∧
    (∀ (s : String) (w : List Char) (ws : List (List Char)),
      ',' ∉ (jsTrim s).data →
      jsWords (jsTrim s).data = w :: ws →
      (ws = [] → formatAuthorABNT s = ⟨w.map jsToUpperChar⟩) ∧
      (∀ (fc : Char) (fcr w2 : List Char) (ws2 : List (List Char)),
        w = fc :: fcr → ws = w2 :: ws2 →
        formatAuthorABNT s =
          ⟨(ws.getLastD w).map jsToUpperChar⟩ ++ ", " ++
            ⟨[jsToUpperChar fc]⟩ ++ ".")) ∧
    formatAuthorABNT "silva, joão" = "SILVA, J." ∧
    formatAuthorABNT "Maria Silva" = "SILVA, M." ∧
    formatAuthorABNT "Madonna" = "MADONNA" ∧
    formatAuthorABNT "" = "" := by
  refine ⟨?_, ?_, ?_, rfl, rfl, rfl, rfl⟩
  · intro s h
    simp [formatAuthorABNT, h]
  · intro s surname given rest heq
    have ha : jsTrim s ≠ "" := by
      intro h0
      rw [h0] at heq
      rw [show ((splitOnPred (fun c => c = ',') ("" : String).data).map jsTrimL) =
        [([] : List Char)] from rfl] at heq
      simp at heq
    have hcomma : ',' ∈ (jsTrim s).data := by
      by_contra hnc
      rw [splitOnPred_of_no_sep _ _ (fun c hc => by
        simp only [decide_eq_false_iff_not]
        exact fun hcc => hnc (hcc ▸ hc))] at heq
      simp at heq
    constructor
    · intro hg
      rw [hg] at heq
      simp only [formatAuthorABNT]
      rw [if_neg ha, if_pos hcomma, heq]
      rfl
    · intro fc fcr hg
      rw [hg] at heq
      simp only [formatAuthorABNT]
      rw [if_neg ha, if_pos hcomma, heq]
      rfl
  · intro s w ws hnc heq
    have ha : jsTrim s ≠ "" := by
      intro h0
      rw [h0] at heq
      rw [show jsWords ("" : String).data = [] from rfl] at heq
      exact List.noConfusion heq
    constructor
    · intro hws
      rw [hws] at heq
      simp only [formatAuthorABNT]
      rw [if_neg ha, if_neg hnc, heq]
    · intro fc fcr w2 ws2 hw hws
      subst hw
      subst hws
      simp only [formatAuthorABNT]
      rw [if_neg ha, if_neg hnc, heq]

/-- Witness for C8: the branch statements applied at concrete names — a
whitespace-only name, a comma form with a given name, a single token and
a three-token name. -/
theorem formatAuthorABNT_spec_witness :
    formatAuthorABNT " " = "" ∧
    formatAuthorABNT "silva, joão" = "SILVA, J." ∧
    formatAuthorABNT "Ana" = "ANA" ∧
    formatAuthorABNT "Maria Clara Silva" = "SILVA, M." := by
  refine ⟨formatAuthorABNT_spec.1 " " (by decide), ?_, ?_, ?_⟩
  · have h := (formatAuthorABNT_spec.2.1 "silva, joão" "silva".data
      "joão".data [] (by decide)).2 'j' "oão".data (by decide)
    rw [h]
    decide
  · have h := (formatAuthorABNT_spec.2.2.1 "Ana" "Ana".data []
      (by decide) (by decide)).1 rfl
    rw [h]
    decide
  · have h := (formatAuthorABNT_spec.2.2.1 "Maria Clara Silva" "Maria".data
      ["Clara".data, "Silva".data] (by decide) (by decide)).2 'M' "aria".data
      "Clara".data ["Silva".data] (by decide) (by decide)
    rw [h]
    decide

/-- The uppercase letters (the keys of the case table). -/
theorem jsToLowerChar_not_upper (c : Char) :
    jsToLowerChar c ∉ asciiCasePairs.map Prod.fst := by
  unfold jsToLowerChar
  cases h : asciiCasePairs.find? (fun p => p.1 = c) with
  | none =>
    intro hmem
    obtain ⟨p, hp, hpc⟩ := List.mem_map.1 hmem
    exact List.find?_eq_none.1 h p hp (by simp [hpc])
  | some p =>
    have hp : p ∈ asciiCasePairs := List.mem_of_find?_eq_some h
    have hall : ∀ q ∈ asciiCasePairs, q.2 ∉ asciiCasePairs.map Prod.fst := by
      decide
    exact hall p hp

/-- A character outside the uppercase keys is fixed by lowercasing. -/
theorem jsToLowerChar_fix (c : Char)
    (h : c ∉ asciiCasePairs.map Prod.fst) : jsToLowerChar c = c := by
  have : asciiCasePairs.find? (fun p => p.1 = c) = none := by
    apply List.find?_eq_none.2
    intro p hp
    simp only [decide_eq_true_eq]
    intro hpc
    exact h (List.mem_map.2 ⟨p, hp, hpc⟩)
  simp [jsToLowerChar, this]

/-- Every character emitted by the whitespace collapse is non-whitespace
and either the hyphen or one of the input characters. -/
theorem mem_collapseWs {c : Char} :
    ∀ (l : List Char) (b : Bool), c ∈ collapseWs b l →
      isJsWhitespace c = false ∧ (c = '-' ∨ c ∈ l) := by
  intro l
  induction l with
  | nil => intro b hc; simp [collapseWs] at hc
  | cons d rest ih =>
    intro b hc
    by_cases hd : isJsWhitespace d
    · rw [show collapseWs b (d :: rest) = if isJsWhitespace d then
          (if b then collapseWs true rest else '-' :: collapseWs true rest)
          else d :: collapseWs false rest from rfl] at hc
      rw [if_pos hd] at hc
      cases b with
      | true =>
        obtain ⟨h1, h2⟩ := ih true (by simpa using hc)
        exact ⟨h1, h2.imp id (fun hm => by simp [hm])⟩
      | false =>
        rw [if_neg (by simp)] at hc
        rcases List.mem_cons.1 hc with hc1 | hc2
        · subst hc1; exact ⟨by decide, Or.inl rfl⟩
        · obtain ⟨h1, h2⟩ := ih true hc2
          exact ⟨h1, h2.imp id (fun hm => by simp [hm])⟩
    · rw [show collapseWs b (d :: rest) = if isJsWhitespace d then
          (if b then collapseWs true rest else '-' :: collapseWs true rest)
          else d :: collapseWs false rest from rfl] at hc
      rw [if_neg hd] at hc
      rcases List.mem_cons.1 hc with hc1 | hc2
      · subst hc1
        exact ⟨by simpa using hd, Or.inr (by simp)⟩
      · obtain ⟨h1, h2⟩ := ih false hc2
        exact ⟨h1, h2.imp id (fun hm => by simp [hm])⟩

/-- Collapsing a whitespace-free list is the identity. -/
theorem collapseWs_eq_self (b : Bool) (l : List Char)
    (h : ∀ c ∈ l, isJsWhitespace c = false) : collapseWs b l = l := by
  induction l generalizing b with
  | nil => rfl
  | cons c rest ih =>
    have hc := h c (by simp)
    rw [show collapseWs b (c :: rest) = if isJsWhitespace c then
        (if b then collapseWs true rest else '-' :: collapseWs true rest)
        else c :: collapseWs false rest from rfl]
    rw [if_neg (by simp [hc])]
    rw [ih false (fun d hd => h d (by simp [hd]))]

/-- C10: `formatVernacularName` is idempotent because its output never
contains whitespace or an uppercase (ASCII) letter. -/
theorem formatVernacularName_idempotent (s : String) :
    formatVernacularName (formatVernacularName s) = formatVernacularName s ∧
    ∀ c ∈ (formatVernacularName s).data,
      isJsWhitespace c = false ∧ c ∉ asciiCasePairs.map Prod.fst := by
  by_cases hs : s = ""
  · subst hs
    exact ⟨rfl, by intro c hc; simp [formatVernacularName] at hc⟩
  · have hout : formatVernacularName s =
        ⟨collapseWs false ((jsTrimL s.data).map jsToLowerChar)⟩ := by
      simp [formatVernacularName, hs]
    set out := collapseWs false ((jsTrimL s.data).map jsToLowerChar) with hdefout
    have hchars : ∀ c ∈ out, isJsWhitespace c = false ∧
        c ∉ asciiCasePairs.map Prod.fst := by
      intro c hc
      obtain ⟨h1, h2⟩ := mem_collapseWs _ _ hc
      refine ⟨h1, ?_⟩
      rcases h2 with h2 | h2
      · subst h2; decide
      · obtain ⟨c0, _, rfl⟩ := List.mem_map.1 h2
        exact jsToLowerChar_not_upper c0
    constructor
    · rw [hout]
      by_cases hempty : out = []
      · rw [hempty]
        rfl
      · have hne : (⟨out⟩ : String) ≠ "" := by
          intro hcon
          exact hempty (by simpa using string_eq_empty_iff_data.1 hcon)
        have htrim : jsTrimL out = out :=
          jsTrimL_eq_self out (fun c hc => (hchars c hc).1)
        have hlower : out.map jsToLowerChar = out := by
          have h2 := List.map_congr_left
            (fun a (ha : a ∈ out) => jsToLowerChar_fix a (hchars a ha).2)
          simpa using h2
        have hcollapse : collapseWs false out = out :=
          collapseWs_eq_self false out (fun c hc => (hchars c hc).1)
        simp [formatVernacularName, hne, htrim, hlower, hcollapse]
    · intro c hc
      rw [hout] at hc
      exact hchars c hc

/-- Witness for C10 at a concrete vernacular name. -/
theorem formatVernacularName_idempotent_witness :
    formatVernacularName (formatVernacularName " Erva  Doce ") =
      formatVernacularName " Erva  Doce " ∧
    (isJsWhitespace 'e' = false ∧ 'e' ∉ asciiCasePairs.map Prod.fst) :=
  ⟨(formatVernacularName_idempotent " Erva  Doce ").1,
   (formatVernacularName_idempotent " Erva  Doce ").2 'e' (by decide)⟩

/-- Rule satisfaction for one plant: the three arrays non-empty, all
entries non-empty after trim and within the caps (spec section 4.3). -/
def PlantOk (p : Plant) : Prop :=
  p.nomeCientifico ≠ [] ∧
  (∀ n ∈ p.nomeCientifico, jsTrim n ≠ "" ∧ n.length ≤ plantaNomeCientificoMax) ∧
  p.nomeVernacular ≠ [] ∧
  (∀ n ∈ p.nomeVernacular, jsTrim n ≠ "" ∧ n.length ≤ plantaNomeVernacularMax) ∧
  p.tipoUso ≠ [] ∧
  (∀ n ∈ p.tipoUso, jsTrim n ≠ "" ∧ n.length ≤ plantaTipoUsoMax)

/-- Rule satisfaction for one community (spec section 4.3). -/
def CommunityOk (c : Community) : Prop :=
  jsTrim c.nome ≠ "" ∧ c.nome.length ≤ comNomeMax ∧
  jsTrim c.municipio ≠ "" ∧ c.municipio.length ≤ comMunicipioMax ∧
  jsTrim c.estado ≠ "" ∧ c.estado.length ≤ comEstadoMax ∧
  c.localDesc.length ≤ comLocalMax ∧
  c.observacoes.length ≤ comObservacoesMax ∧
  (∀ a ∈ c.atividadesEconomicas, a.length ≤ comAtividadeMax) ∧
  c.plantas ≠ [] ∧ (∀ p ∈ c.plantas, PlantOk p)

/-- Rule 5: a present, truthy status must be one of the enum values. -/
def statusOk : Option String → Prop
  | none => True
  | some s => s = "" ∨ s ∈ statusValues

/-- Full rule satisfaction for a record (spec section 4.3, rules 1-7). -/
def SatisfiesRules (r : Reference) : Prop :=
  jsTrim r.titulo ≠ "" ∧ r.titulo.length ≤ tituloMax ∧
  r.autores ≠ [] ∧ (∀ a ∈ r.autores, jsTrim a ≠ "") ∧
  r.ano ≠ 0 ∧ anoMin ≤ r.ano ∧ r.ano ≤ anoMax ∧
  r.resumo.length ≤ resumoMax ∧ r.DOI.length ≤ doiMax ∧
  statusOk r.status ∧
  r.comunidades ≠ [] ∧ (∀ c ∈ r.comunidades, CommunityOk c)

instance (p : Plant) : Decidable (PlantOk p) := by
  unfold PlantOk; exact inferInstance

instance (c : Community) : Decidable (CommunityOk c) := by
  unfold CommunityOk; exact inferInstance

instance : (o : Option String) → Decidable (statusOk o)
  | none => Decidable.isTrue trivial
  | some s => inferInstanceAs (Decidable (s = "" ∨ s ∈ statusValues))

instance (r : Reference) : Decidable (SatisfiesRules r) := by
  unfold SatisfiesRules; exact inferInstance

/-- A satisfied title rule emits no message. -/
theorem tituloErrors_nil {t : String} (h1 : jsTrim t ≠ "")
    (h2 : t.length ≤ tituloMax) : tituloErrors t = [] := by
  unfold tituloErrors
  rw [if_neg h1, if_neg (Nat.not_lt.2 h2)]

/-- A satisfied authors rule emits no message. -/
theorem autoresErrors_nil {l : List String} (h1 : l ≠ [])
    (h2 : ∀ a ∈ l, jsTrim a ≠ "") : autoresErrors l = [] := by
  have hany : (l.any fun a => jsTrim a = "") = false := by
    rw [List.any_eq_false]
    intro a ha
    simpa using h2 a ha
  simp [autoresErrors, h1, hany]

/-- A satisfied year rule emits no message. -/
theorem anoErrors_nil {a : Int} (h0 : a ≠ 0) (h1 : anoMin ≤ a)
    (h2 : a ≤ anoMax) : anoErrors a = [] := by
  unfold anoErrors
  rw [if_neg h0, if_neg (not_or.2 ⟨not_lt.2 h1, not_lt.2 h2⟩)]

/-- A satisfied abstract rule emits no message. -/
theorem resumoErrors_nil {s : String} (h : s.length ≤ resumoMax) :
    resumoErrors s = [] := by
  unfold resumoErrors
  exact if_neg (fun hc => absurd hc.2 (Nat.not_lt.2 h))

/-- A satisfied DOI rule emits no message. -/
theorem doiErrors_nil {s : String} (h : s.length ≤ doiMax) :
    doiErrors s = [] := by
  unfold doiErrors
  exact if_neg (fun hc => absurd hc.2 (Nat.not_lt.2 h))

/-- A satisfied status rule emits no message. -/
theorem statusErrors_nil {o : Option String} (h : statusOk o) :
    statusErrors o = [] := by
  cases o with
  | none => rfl
  | some s =>
    rcases h with h | h
    · simp [statusErrors, h]
    · unfold statusErrors
      exact if_neg (fun hc => hc.2 h)

/-- A satisfied per-array plant rule emits no message. -/
theorem plantArrayErrors_nil {entries : List String}
    (reqMsg invMsg : String) (capMsgAt : Nat → String) (cap : Nat)
    (h1 : entries ≠ []) (h2 : ∀ n ∈ entries, jsTrim n ≠ "" ∧ n.length ≤ cap) :
    plantArrayErrors entries reqMsg invMsg capMsgAt cap = [] := by
  unfold plantArrayErrors
  rw [if_neg h1]
  have hany : (entries.any fun n => jsTrim n = "") = false := by
    rw [List.any_eq_false]
    intro n hn
    simpa using (h2 n hn).1
  have hcap : (entries.enum.flatMap fun inm =>
      if inm.2 ≠ "" ∧ inm.2.length > cap then [capMsgAt (inm.1 + 1)] else []) = [] := by
    rw [List.flatMap_eq_nil_iff]
    rintro ⟨i, n⟩ hmem
    have hn : n ∈ entries := by
      have : n ∈ entries.enum.map Prod.snd := List.mem_map.2 ⟨(i, n), hmem, rfl⟩
      simpa [List.enum_map_snd] using this
    exact if_neg (fun hc => absurd hc.2 (Nat.not_lt.2 (h2 n hn).2))
  rw [hany, hcap]
  rfl

/-- A rule-satisfying plant produces no message. -/
theorem validatePlant_nil {p : Plant} (h : PlantOk p) (ci pi2 : Nat) :
    validatePlant p ci pi2 = [] := by
  obtain ⟨h1, h2, h3, h4, h5, h6⟩ := h
  simp only [validatePlant]
  rw [plantArrayErrors_nil _ _ _ _ h1 h2, plantArrayErrors_nil _ _ _ _ h3 h4,
    plantArrayErrors_nil _ _ _ _ h5 h6]
  rfl

/-- A rule-satisfying community produces no message. -/
theorem validateCommunity_nil {c : Community} (h : CommunityOk c) (idx : Nat) :
    validateCommunity c idx = [] := by
  obtain ⟨h1, h2, h3, h4, h5, h6, h7, h8, h9, h10, h11⟩ := h
  simp only [validateCommunity]
  rw [if_neg h1, if_neg (Nat.not_lt.2 h2), if_neg h3, if_neg (Nat.not_lt.2 h4),
    if_neg h5, if_neg (Nat.not_lt.2 h6),
    if_neg (fun hc => absurd hc.2 (Nat.not_lt.2 h7)),
    if_neg (fun hc => absurd hc.2 (Nat.not_lt.2 h8))]
  have hativ : (c.atividadesEconomicas.enum.flatMap fun ia =>
      if ia.2 ≠ "" ∧ ia.2.length > comAtividadeMax then
        ["Comunidade " ++ toString idx ++ ": Atividade econômica " ++
          toString (ia.1 + 1) ++ " deve ter no máximo " ++
          toString comAtividadeMax ++ " caracteres"]
      else []) = [] := by
    rw [List.flatMap_eq_nil_iff]
    rintro ⟨i, a⟩ hmem
    have ha : a ∈ c.atividadesEconomicas := by
      have : a ∈ c.atividadesEconomicas.enum.map Prod.snd :=
        List.mem_map.2 ⟨(i, a), hmem, rfl⟩
      simpa [List.enum_map_snd] using this
    exact if_neg (fun hc => absurd hc.2 (Nat.not_lt.2 (h9 a ha)))
  have hpl : (c.plantas.enum.flatMap fun ip =>
      validatePlant ip.2 idx (ip.1 + 1)) = [] := by
    rw [List.flatMap_eq_nil_iff]
    rintro ⟨i, p⟩ hmem
    have hp : p ∈ c.plantas := by
      have : p ∈ c.plantas.enum.map Prod.snd := List.mem_map.2 ⟨(i, p), hmem, rfl⟩
      simpa [List.enum_map_snd] using this
    exact validatePlant_nil (h11 p hp) idx (i + 1)
  rw [if_neg h10, hativ, hpl]
  rfl

/-- Rule-satisfying communities produce no message. -/
theorem comunidadesErrors_nil {l : List Community} (h1 : l ≠ [])
    (h2 : ∀ c ∈ l, CommunityOk c) : comunidadesErrors l = [] := by
  unfold comunidadesErrors
  rw [if_neg h1, List.flatMap_eq_nil_iff]
  rintro ⟨i, c⟩ hmem
  have hc : c ∈ l := by
    have : c ∈ l.enum.map Prod.snd := List.mem_map.2 ⟨(i, c), hmem, rfl⟩
    simpa [List.enum_map_snd] using this
  exact validateCommunity_nil (h2 c hc) (i + 1)

/-- C4: validation is total on records (it is a function), `valid` holds
exactly when the error list is empty, and a record satisfying all the
stated rules validates with an empty error list. -/
theorem validateReference_contract (r : Reference) :
    ((validateReference r).isValid = true ↔ (validateReference r).errors = []) ∧
    (SatisfiesRules r → validateReference r = ⟨true, []⟩) := by
  constructor
  · simp [validateReference, List.isEmpty_iff]
  · intro h
    obtain ⟨h1, h2, h3, h4, h5, h6, h7, h8, h9, h10, h11, h12⟩ := h
    unfold validateReference
    rw [tituloErrors_nil h1 h2, autoresErrors_nil h3 h4, anoErrors_nil h5 h6 h7,
      resumoErrors_nil h8, doiErrors_nil h9, statusErrors_nil h10,
      comunidadesErrors_nil h11 h12]
    rfl

/-- Witness for C4: a concrete rule-satisfying record validates clean. -/
theorem validateReference_contract_witness :
    validateReference ⟨"Plantas medicinais", ["SILVA, J."], 2000, "", "", none,
      [⟨"Comunidade A", "", "Cidade", "Bahia", "", [], "",
        [⟨["Foeniculum vulgare"], ["erva-doce"], ["medicinal"]⟩]⟩]⟩ =
      ⟨true, []⟩ :=
  (validateReference_contract _).2 (by decide)

/-- C2: the filter keeps exactly the plants carrying a name, every plant
in the mapper output carries a name, and a community whose plants array is
empty always gets the plant-required message with its 1-based index. -/
theorem empty_plants_filtered_and_flagged :
    (∀ (l : List Plant) (p : Plant),
      p ∈ filterEmptyPlants l ↔ p ∈ l ∧ plantHasName p = true) ∧
    (∀ (fd : List (String × String)) (com : Community) (p : Plant),
      com ∈ (parseFormData fd).comunidades → p ∈ com.plantas →
      plantHasName p = true) ∧
    (∀ (r : Reference) (i : Nat) (h : i < r.comunidades.length),
      (r.comunidades.get ⟨i, h⟩).plantas = [] →
      ("Comunidade " ++ toString (i + 1) ++
        ": Pelo menos uma planta é obrigatória") ∈ (validateReference r).errors) := by
  refine ⟨fun l p => List.mem_filter, fun fd com p hcom hp => ?_, fun r i h hpl => ?_⟩
  · simp only [parseFormData, List.mem_map] at hcom
    obtain ⟨idx, _, hcomEq⟩ := hcom
    rw [← hcomEq] at hp
    exact (List.mem_filter.1 hp).2
  · have hmem : ("Comunidade " ++ toString (i + 1) ++
        ": Pelo menos uma planta é obrigatória") ∈
        validateCommunity (r.comunidades.get ⟨i, h⟩) (i + 1) := by
      simp only [validateCommunity]
      apply List.mem_append_right
      rw [if_pos hpl]
      exact List.mem_singleton.2 rfl
    have hne : r.comunidades ≠ [] := by
      intro h0
      rw [h0] at h
      simp at h
    unfold validateReference
    apply List.mem_append_right
    unfold comunidadesErrors
    rw [if_neg hne]
    apply List.mem_flatMap.2
    refine ⟨(i, r.comunidades.get ⟨i, h⟩), ?_, hmem⟩
    have hlen : i < r.comunidades.enum.length := by simpa using h
    have hget := List.getElem_enum r.comunidades i hlen
    have hgg : r.comunidades.get ⟨i, h⟩ = r.comunidades[i] := rfl
    rw [hgg, ← hget]
    exact List.getElem_mem hlen

/-- Witness for C2: the filter specification at a one-plant list, a
concrete flat form whose surviving plant carries a name, and a concrete
record with an empty plants array flagged for community 1. -/
theorem empty_plants_filtered_and_flagged_witness :
    ((⟨["Y"], [], []⟩ : Plant) ∈ filterEmptyPlants [⟨["Y"], [], []⟩] ↔
      (⟨["Y"], [], []⟩ : Plant) ∈ [(⟨["Y"], [], []⟩ : Plant)] ∧
      plantHasName ⟨["Y"], [], []⟩ = true) ∧
    plantHasName ⟨["Y"], [], []⟩ = true ∧
    ("Comunidade 1: Pelo menos uma planta é obrigatória") ∈
      (validateReference ⟨"T", ["SILVA, J."], 2000, "", "", none,
        [⟨"N", "", "M", "Bahia", "", [], "", []⟩]⟩).errors := by
  refine ⟨empty_plants_filtered_and_flagged.1 _ _, ?_, ?_⟩
  · exact empty_plants_filtered_and_flagged.2.1
      [("comunidades[0][nome]", "X"),
       ("comunidades[0][plantas][0][nomeCientifico]", "Y")]
      ⟨"X", "", "", "", "", [], "", [⟨["Y"], [], []⟩]⟩
      ⟨["Y"], [], []⟩ (by decide) (by decide)
  · have h := empty_plants_filtered_and_flagged.2.2
      ⟨"T", ["SILVA, J."], 2000, "", "", none,
        [⟨"N", "", "M", "Bahia", "", [], "", []⟩]⟩ 0 (by decide) (by rfl)
    simpa using h

/-- C3: a record whose title is absent or empty after trimming always
gets the title-required message, whatever the other fields contain:
validation collects every message rather than stopping at the first. -/
theorem validateReference_titulo_required (r : Reference)
    (h : jsTrim r.titulo = "") :
    "Título é obrigatório" ∈ (validateReference r).errors := by
  have ht : tituloErrors r.titulo = ["Título é obrigatório"] := by
    simp [tituloErrors, h]
  simp only [validateReference, ht]
  simp

/-- Witness for C3: a record with a whitespace title and otherwise
well-formed fields still reports the title message. -/
theorem validateReference_titulo_required_witness :
    "Título é obrigatório" ∈
      (validateReference ⟨" ", ["SILVA, J."], 2000, "", "", none,
        [⟨"N", "", "M", "Bahia", "", [], "",
          [⟨["Foeniculum vulgare"], ["erva-doce"], ["medicinal"]⟩]⟩]⟩).errors :=
  validateReference_titulo_required _ (by decide)

/-- The head comparison of the lexicographic order. -/
theorem charListLe_cons (a b : Char) (as bs : List Char) :
    charListLe (a :: as) (b :: bs) = true ↔
      a < b ∨ (a = b ∧ charListLe as bs = true) := by
  by_cases hab : a < b
  · simp [charListLe, hab]
  · by_cases hba : b < a
    · have hne : a ≠ b := fun hc => absurd (hc ▸ hba) (lt_irrefl a)
      simp [charListLe, hab, hba, hne]
    · have heq : a = b := le_antisymm (not_lt.1 hba) (not_lt.1 hab)
      simp [charListLe, hab, hba, heq]

/-- Totality of the lexicographic order. -/
theorem charListLe_total (x : List Char) :
    ∀ y, charListLe x y = true ∨ charListLe y x = true := by
  induction x with
  | nil => intro y; exact Or.inl rfl
  | cons a as ih =>
    intro y
    cases y with
    | nil => exact Or.inr rfl
    | cons b bs =>
      rcases lt_trichotomy a b with h | h | h
      · exact Or.inl ((charListLe_cons a b as bs).2 (Or.inl h))
      · rcases ih bs with h2 | h2
        · exact Or.inl ((charListLe_cons a b as bs).2 (Or.inr ⟨h, h2⟩))
        · exact Or.inr ((charListLe_cons b a bs as).2 (Or.inr ⟨h.symm, h2⟩))
      · exact Or.inr ((charListLe_cons b a bs as).2 (Or.inl h))

/-- Transitivity of the lexicographic order. -/
theorem charListLe_trans :
    ∀ {x y z : List Char}, charListLe x y = true → charListLe y z = true →
      charListLe x z = true := by
  intro x
  induction x with
  | nil => intro y z _ _; rfl
  | cons a as ih =>
    intro y z hxy hyz
    cases y with
    | nil => exact absurd hxy (by simp [charListLe])
    | cons b bs =>
      cases z with
      | nil => exact absurd hyz (by simp [charListLe])
      | cons c cs =>
        rcases (charListLe_cons a b as bs).1 hxy with h1 | ⟨h1, h1r⟩ <;>
          rcases (charListLe_cons b c bs cs).1 hyz with h2 | ⟨h2, h2r⟩
        · exact (charListLe_cons a c as cs).2 (Or.inl (lt_trans h1 h2))
        · exact (charListLe_cons a c as cs).2 (Or.inl (h2 ▸ h1))
        · exact (charListLe_cons a c as cs).2 (Or.inl (h1 ▸ h2))
        · exact (charListLe_cons a c as cs).2
            (Or.inr ⟨h1.trans h2, ih h1r h2r⟩)

/-- Inserting preserves membership up to permutation. -/
theorem insertStrKey_perm (k : Nat) (l : List Nat) :
    (insertStrKey k l).Perm (k :: l) := by
  induction l with
  | nil => exact List.Perm.refl _
  | cons x xs ih =>
    unfold insertStrKey
    by_cases h : charListLe (toString k).data (toString x).data
    · rw [if_pos h]
    · rw [if_neg h]
      exact (ih.cons x).trans (List.Perm.swap k x xs)

/-- Inserting preserves sortedness in the key order. -/
theorem insertStrKey_sorted {l : List Nat} (h : l.Sorted strKeyLe) (k : Nat) :
    (insertStrKey k l).Sorted strKeyLe := by
  induction l with
  | nil => simp [insertStrKey]
  | cons x xs ih =>
    rw [List.sorted_cons] at h
    obtain ⟨hx, hxs⟩ := h
    unfold insertStrKey
    by_cases hk : charListLe (toString k).data (toString x).data
    · rw [if_pos hk]
      rw [List.sorted_cons]
      refine ⟨?_, List.sorted_cons.2 ⟨hx, hxs⟩⟩
      intro b hb
      rcases List.mem_cons.1 hb with rfl | hb
      · exact hk
      · exact charListLe_trans hk (hx b hb)
    · rw [if_neg hk]
      rw [List.sorted_cons]
      constructor
      · intro b hb
        have hmem := (insertStrKey_perm k xs).mem_iff.1 hb
        rcases List.mem_cons.1 hmem with hbk | hb2
        · rw [hbk]
          exact (charListLe_total (toString k).data (toString x).data).resolve_left hk
        · exact hx b hb2
      · exact ih hxs

/-- The key sort is a permutation of the keys. -/
theorem jsSortStrKeys_perm (l : List Nat) : (jsSortStrKeys l).Perm l := by
  induction l with
  | nil => exact List.Perm.refl _
  | cons k ks ih =>
    exact (insertStrKey_perm k (jsSortStrKeys ks)).trans (ih.cons k)

/-- The key sort is sorted in the key order. -/
theorem jsSortStrKeys_sorted (l : List Nat) :
    (jsSortStrKeys l).Sorted strKeyLe := by
  induction l with
  | nil => simp [jsSortStrKeys]
  | cons k ks ih => exact insertStrKey_sorted ih k

/-- C1 (amended): the mapper groups by parsed integer index and emits one
community per distinct index (and one plant per distinct plant index,
filtered afterwards), each level ordered by the lexicographic order of
the decimal index strings — the order of the JavaScript default sort —
not by numeric value. -/
theorem parseFormData_emission_order (fd : List (String × String)) :
    (∃ ks : List Nat,
      ks.Perm ((collectComunidades fd).map Prod.fst) ∧
      ks.Sorted strKeyLe ∧
      (parseFormData fd).comunidades = ks.map (fun idx =>
        buildCommunity ((assocGet (collectComunidades fd) idx).getD emptyRawCom))) ∧
    ∀ rc : RawCom, ∃ ps : List Nat,
      ps.Perm (rc.plantas.map Prod.fst) ∧
      ps.Sorted strKeyLe ∧
      (buildCommunity rc).plantas = filterEmptyPlants (ps.map (fun pIdx =>
        buildPlant ((assocGet rc.plantas pIdx).getD []))) := by
  refine ⟨⟨jsSortStrKeys ((collectComunidades fd).map Prod.fst),
    jsSortStrKeys_perm _, jsSortStrKeys_sorted _, rfl⟩, fun rc =>
    ⟨jsSortStrKeys (rc.plantas.map Prod.fst),
      jsSortStrKeys_perm _, jsSortStrKeys_sorted _, rfl⟩⟩

/-- The escaped text never starts with a bare star. -/
theorem sanitizeChars_head_ne_star (l : List Char) :
    (sanitizeChars l).head? ≠ some '*' := by
  cases l with
  | nil => simp [sanitizeChars]
  | cons c rest =>
    by_cases hc : c ∈ regexMeta
    · simp [sanitizeChars, hc]
    · simp [sanitizeChars, hc]
      intro h
      exact hc (by rw [h]; decide)

/-- Escaping never empties a non-empty text. -/
theorem sanitizeChars_eq_nil {l : List Char} (h : sanitizeChars l = []) :
    l = [] := by
  cases l with
  | nil => rfl
  | cons c rest =>
    by_cases hc : c ∈ regexMeta <;> simp [sanitizeChars, hc] at h

/-- Tokenizing escaped text yields one literal token per original
character. -/
theorem tokenize_sanitizeChars (l : List Char) :
    tokenize (sanitizeChars l) =
      some (l.map fun c => RTok.once (RAtom.lit c)) := by
  induction l with
  | nil => rfl
  | cons c rest ih =>
    by_cases hc : c ∈ regexMeta
    · have hsan : sanitizeChars (c :: rest) = '\\' :: c :: sanitizeChars rest := by
        simp [sanitizeChars, hc]
      rw [hsan]
      cases hrest : sanitizeChars rest with
      | nil =>
        rw [hrest] at ih
        rw [sanitizeChars_eq_nil hrest]
        simp [tokenize, ih, sanitizeChars_eq_nil hrest]
      | cons d tail =>
        have hd : d ≠ '*' := by
          have := sanitizeChars_head_ne_star rest
          rw [hrest] at this
          simpa using this
        rw [hrest] at ih
        simp [tokenize, hd, ih]
    · have hsan : sanitizeChars (c :: rest) = c :: sanitizeChars rest := by
        simp [sanitizeChars, hc]
      have hcb : c ≠ '\\' := fun h => hc (h ▸ (by decide))
      have hcd : c ≠ '.' := fun h => hc (h ▸ (by decide))
      rw [hsan]
      cases hrest : sanitizeChars rest with
      | nil =>
        rw [hrest] at ih
        rw [sanitizeChars_eq_nil hrest]
        simp [tokenize, hcb, hcd, hc, ih, sanitizeChars_eq_nil hrest]
      | cons d tail =>
        have hd : d ≠ '*' := by
          have := sanitizeChars_head_ne_star rest
          rw [hrest] at this
          simpa using this
        rw [hrest] at ih
        simp [tokenize, hcb, hcd, hc, hd, ih]

/-- A list of literal tokens matches a prefix exactly when the literal
word is a prefix. -/
theorem matchToks_lit (l cs : List Char) :
    matchToks cs (l.map fun c => RTok.once (RAtom.lit c)) = true ↔
      l <+: cs := by
  induction cs generalizing l with
  | nil =>
    cases l with
    | nil => simp [matchToks, nullableToks]
    | cons x xs => simp [matchToks, nullableToks]
  | cons c cs ih =>
    cases l with
    | nil => simp [matchToks, matchCons]
    | cons x xs =>
      simp only [List.map_cons, matchToks, matchCons, atomMatches,
        Bool.and_eq_true, decide_eq_true_eq, List.cons_prefix_cons, ih]
      constructor
      · rintro ⟨h1, h2⟩; exact ⟨h1.symm, h2⟩
      · rintro ⟨h1, h2⟩; exact ⟨h1.symm, h2⟩

/-- A list of literal tokens is found somewhere exactly when the literal
word is an infix. -/
theorem searchToks_lit (l cs : List Char) :
    searchToks (l.map fun c => RTok.once (RAtom.lit c)) cs = true ↔
      l <:+: cs := by
  induction cs with
  | nil =>
    simp only [searchToks, matchToks_lit, List.prefix_nil, List.infix_nil]
  | cons c cs ih =>
    simp only [searchToks, Bool.or_eq_true, matchToks_lit, ih,
      List.infix_cons_iff]

/-- C6: the sanitized pattern of a filter value matches exactly the
occurrences of the trimmed value as literal text, and the unsanitized
metacharacter pattern `.*` would match anything while its sanitized form
does not. -/
theorem sanitizeRegex_literal_match :
    (∀ s t : String,
      regexSearch (sanitizeRegex s) t = some true ↔
        (jsTrim s).data <:+: t.data) ∧
    regexSearch ".*" "Foeniculum" = some true ∧
    regexSearch (sanitizeRegex ".*") "Foeniculum" = some false := by
  refine ⟨fun s t => ?_, by decide, by decide⟩
  have hdata : (sanitizeRegex s).data = sanitizeChars (jsTrimL s.data) := by
    by_cases hs : s = ""
    · subst hs; rfl
    · simp [sanitizeRegex, hs]
  unfold regexSearch
  rw [hdata, tokenize_sanitizeChars]
  rw [show Option.map (fun ts => searchToks ts t.data)
      (some ((jsTrimL s.data).map fun c => RTok.once (RAtom.lit c))) =
      some (searchToks ((jsTrimL s.data).map fun c => RTok.once (RAtom.lit c))
        t.data) from rfl,
    Option.some_inj]
  exact searchToks_lit _ _

/-- Counterexample for C1 as stated: with communities at indices 2 and
10, the mapper emits the community of index 10 first — the output is not
sorted by the parsed integer index ascending. -/
theorem parseFormData_not_numeric_order :
    (parseFormData [("comunidades[2][nome]", "A"),
      ("comunidades[10][nome]", "B")]).comunidades.map Community.nome =
      ["B", "A"] ∧
    (parseFormData [("comunidades[2][nome]", "A"),
      ("comunidades[10][nome]", "B")]).comunidades.map Community.nome ≠
      ["A", "B"] := by
  exact ⟨by decide, by decide⟩

end EtnoDB
